import Mathlib

/-!
Verification of the BCF header / record translation / subsetting layer of
rust-htslib (`src/bcf/mod.rs` and `src/bcf/header.rs`).

The Rust code is a thin wrapper over the htslib C library.  The wrapper logic
(pattern matches on return codes, rebinding of records to headers, the handling
or discarding of C return values) is embedded directly from the Rust source.
The behaviour of the C calls themselves (`bcf_translate`, `bcf_subset`,
`bcf_hdr_subset`, `bcf_hdr_add_sample`, `bcf_hdr_dup`, the record codec behind
`bcf_read`) is not part of the source; those are modelled from the spec and
marked as such in their doc comments.

Header storage lives behind raw C pointers in the source; we model C memory as
a heap `List BcfHdr`, a pointer being an index into it.  Allocation appends.
-/

set_option autoImplicit false

namespace Bcf

/-- Sample / contig / field names are byte strings in the source; rendered as `String`. -/
abbrev Name := String

/-- A header pointer (`*mut bcf_hdr_t`): an index into the header heap. -/
abbrev HdrPtr := Nat

/-- Modelled from the spec: a typed field value stored in a record's INFO or
FORMAT blocks (the byte-level encoding of typed values is an out-of-scope
codec concern, so the value type is abstract here). -/
inductive BVal where
  | int (n : Int)
  | str (s : Name)
  | missing
deriving DecidableEq

/-- Modelled from the spec (§3 Data Model): the dictionary contents of a
`bcf_hdr_t`.  Each dictionary is append-only with dense 0-based ids, so an
entry's id is its index in the list.  `nSample` is the `n[BCF_DT_SAMPLE]`
count field read by `HeaderView::sample_count`, kept separately from the
`samples` name array exactly as the C struct keeps them. -/
structure BcfHdr where
  contigs : List Name
  idDefs : List Name
  samples : List Name
  nSample : Nat
deriving DecidableEq

instance : Inhabited BcfHdr := ⟨⟨[], [], [], 0⟩⟩

/-- C memory holding the headers; a `HdrPtr` indexes into it. -/
abbrev Heap := List BcfHdr

/-- Modelled from the spec (§3 Data Model): the contents of a `bcf1_t` record.
Integer ids reference the dictionaries of the record's currently bound header:
`rid` indexes the contig dictionary, INFO/FORMAT keys index the
field-definition dictionary.  A FORMAT entry holds one value slot per sample. -/
structure BcfRec where
  rid : Nat
  pos : Nat
  alleles : List Name
  info : List (Nat × BVal)
  format : List (Nat × List BVal)
deriving DecidableEq

instance : Inhabited BcfRec := ⟨⟨0, 0, [], [], []⟩⟩

/-- `pub type SampleSubset = Vec<i32>;` (header.rs). -/
abbrev SampleSubset := List Int

/-- `Header` (header.rs): a raw header pointer plus the optional subset map. -/
structure Header where
  inner : HdrPtr
  subset : Option SampleSubset
deriving DecidableEq

/-- `HeaderView` (header.rs): a non-owning view of a raw header pointer. -/
structure HeaderView where
  inner : HdrPtr
deriving DecidableEq

/-- The Rust `Record` (record.rs, declared in bcf/mod.rs): record data plus the
raw pointer of the header it is currently bound to. -/
structure Record where
  inner : BcfRec
  header : HdrPtr
deriving DecidableEq

/-- `Reader` (mod.rs); the `htsFile` handle is out-of-scope I/O and not modelled. -/
structure Reader where
  header : HeaderView
deriving DecidableEq

/-- `Writer` (mod.rs); the `htsFile` handle is out-of-scope I/O and not modelled. -/
structure Writer where
  header : HeaderView
  subset : Option SampleSubset
deriving DecidableEq

/-- `Records` (mod.rs): iterator borrowing a reader. -/
structure Records where
  reader : Reader
deriving DecidableEq

/-- Name lookup in a dictionary: the entry's dense id is its index. -/
def dictLookup (dict : List Name) (n : Name) : Option Nat :=
  dict.findIdx? (· == n)

/-! ## Modelled htslib calls -/

/-- Modelled from the spec (§4.1 duplicate): `bcf_hdr_dup` deep-copies the
header into fresh, independent storage, preserving dictionary ids.  Returns
the new heap and the fresh pointer. -/
def bcf_hdr_dup (heap : Heap) (p : HdrPtr) : Heap × HdrPtr :=
  (heap ++ [heap.getD p default], heap.length)

/-- Modelled from the spec (§4.1 add_sample): `bcf_hdr_add_sample` appends the
name to the sample dictionary with the next dense id; a name already present
is rejected (`DuplicateNameError`) and the dictionary is left unchanged. -/
inductive HdrError where
  | duplicateName
deriving DecidableEq

/-- Modelled from the spec (§4.1 add_sample); see `HdrError`. -/
def bcf_hdr_add_sample (h : BcfHdr) (name : Name) : Except HdrError BcfHdr :=
  if name ∈ h.samples then .error .duplicateName
  else .ok { h with samples := h.samples ++ [name], nSample := h.nSample + 1 }

/-- Modelled from the spec (§4.1 derive_subset): scaffolding for
`bcf_hdr_subset`, computing the `imap` out-buffer: entry `i` is the original
id of the `i`-th requested name; fails if any name is absent. -/
def buildImap (origSamples : List Name) : List Name → Option (List Int)
  | [] => some []
  | n :: ns =>
    match dictLookup origSamples n, buildImap origSamples ns with
    | some i, some rest => some (Int.ofNat i :: rest)
    | _, _ => none

/-- Modelled from the spec (§4.1 derive_subset): `bcf_hdr_subset` builds a new
header whose sample dictionary holds exactly the requested names in the
requested order and writes into the caller's `imap` buffer the original id of
each requested name; it returns null (here `none`) when the dictionary build
fails, e.g. a requested name is absent from the template. -/
def bcf_hdr_subset (heap : Heap) (p : HdrPtr) (names : List Name) :
    Option (Heap × HdrPtr × List Int) :=
  match heap.get? p with
  | none => none
  | some h =>
    match buildImap h.samples names with
    | none => none
    | some imap =>
      some (heap ++ [{ h with samples := names, nSample := names.length }],
            heap.length, imap)

/-- Errors of the modelled `bcf_translate` (spec §4.2). -/
inductive TranslateError where
  | unknownContig
  | badHeader
deriving DecidableEq

/-- Modelled from the spec (§4.2 Translator, step 2): remap every field key by
name from the source to the destination field-definition dictionary; fields
whose name is absent in the destination are dropped. -/
def remapFields {α : Type} (dstDefs srcDefs : List Name) (fields : List (Nat × α)) :
    List (Nat × α) :=
  fields.filterMap fun p =>
    ((srcDefs.get? p.1).bind (dictLookup dstDefs)).map fun j => (j, p.2)

/-- Modelled from the spec (§4.2 Translator, steps 1–3): remap the contig id by
name (failing with `UnknownContigError` when the contig is absent from the
destination), remap INFO/FORMAT keys dropping unmappable ones, copy the
alleles unchanged.  On failure the record is left untouched (the error is
returned, no partial rewrite). -/
def translateCore (dst src : BcfHdr) (r : BcfRec) : Except TranslateError BcfRec :=
  match (src.contigs.get? r.rid).bind (dictLookup dst.contigs) with
  | none => .error .unknownContig
  | some newRid =>
    .ok { r with
          rid := newRid
          info := remapFields dst.idDefs src.idDefs r.info
          format := remapFields dst.idDefs src.idDefs r.format }

/-- Modelled from the spec (§4.2): `bcf_translate(dst_hdr, src_hdr, rec)`.
When source and destination are the same header (pointer equality) the call is
a no-op; otherwise the record's dictionary references are remapped by
`translateCore`. -/
def bcf_translate (heap : Heap) (dstPtr srcPtr : HdrPtr) (r : BcfRec) :
    Except TranslateError BcfRec :=
  if srcPtr = dstPtr then .ok r
  else
    match heap.get? dstPtr, heap.get? srcPtr with
    | some dst, some src => translateCore dst src r
    | _, _ => .error .badHeader

/-- Error of the modelled `bcf_subset` (spec §4.3). -/
inductive SubsetError where
  | indexOutOfRange
deriving DecidableEq

/-- Modelled from the spec (§4.3 Subsetter): one per-sample slot of the new
sequence — the old sequence's value at the mapped index, undefined when the
index is out of range. -/
def subsetEntry (vs : List BVal) (m : Int) : Option BVal :=
  if m < 0 then none else vs.get? m.toNat

/-- Modelled from the spec (§4.3 Subsetter): the new per-sample value sequence,
of length `len(subset_map)`, position `i` holding the old sequence's value at
index `subset_map[i]`; fails when any map entry is out of range. -/
def subsetSeq (vs : List BVal) : List Int → Option (List BVal)
  | [] => some []
  | m :: ms =>
    match subsetEntry vs m, subsetSeq vs ms with
    | some v, some rest => some (v :: rest)
    | _, _ => none

/-- Modelled from the spec (§4.3 Subsetter): apply `subsetSeq` to every FORMAT
field's per-sample sequence, keeping the field keys. -/
def subsetFormat (smap : List Int) : List (Nat × List BVal) → Option (List (Nat × List BVal))
  | [] => some []
  | p :: rest =>
    match subsetSeq p.2 smap, subsetFormat smap rest with
    | some vs2, some rest2 => some ((p.1, vs2) :: rest2)
    | _, _ => none

/-- Modelled from the spec (§4.3 Subsetter): `bcf_subset` rewrites every FORMAT
field of the record to retain only the mapped samples, in map order; INFO
fields are untouched; an out-of-range map entry is a hard failure
(`IndexOutOfRangeError`) with the record left unchanged. -/
def bcf_subset (smap : SampleSubset) (r : BcfRec) : Except SubsetError BcfRec :=
  match subsetFormat smap r.format with
  | some fmt => .ok { r with format := fmt }
  | none => .error .indexOutOfRange

/-- Modelled from the spec (§6): the binary record codec's answer to one
`read_next` call — a record, a clean end of stream, or a read fault. -/
inductive CodecOut where
  | record (r : BcfRec)
  | endOfStream
  | fault (code : Int)
deriving DecidableEq

/-- Modelled from the spec (§6) and the htslib return convention matched by the
wrapper: `bcf_read` returns 0 on success and -1 on end of stream; a fault is
any other value. -/
def retOf : CodecOut → Int
  | .record _ => 0
  | .endOfStream => -1
  | .fault c => c

/-- A fault code really is distinct from the success and end-of-stream codes. -/
def WFCodec : CodecOut → Prop
  | .fault c => c ≠ 0 ∧ c ≠ -1
  | _ => True

/-- Modelled from the spec: `bcf_read` fills the caller's record buffer exactly
when it decodes a record. -/
def codecFill (out : CodecOut) (r : BcfRec) : BcfRec :=
  match out with
  | .record newRec => newRec
  | _ => r

/-- Shallow model of `slice::from_raw_parts`: defined only when the array
actually holds `n` entries. -/
def rawSlice (arr : List Name) (n : Nat) : Option (List Name) :=
  if n ≤ arr.length then some (arr.take n) else none

/-- `Record::new()` (record.rs, not under src/): modelled from the spec as a
fresh, empty record not yet bound to any header. -/
def Record.new : Record := { inner := default, header := 0 }

/-! ## The Rust wrapper operations, embedded from src/ -/

/-- `ReadError` (mod.rs). -/
inductive ReadError where
  | Invalid
  | NoMoreRecord
deriving DecidableEq

/-- `Header::subset_template` (header.rs): allocate `imap`, call
`bcf_hdr_subset`; a null result is `Err(())`, otherwise the new header carries
`subset: Some(imap)`. -/
def Header.subset_template (heap : Heap) (hv : HeaderView) (samples : List Name) :
    Heap × Except Unit Header :=
  match bcf_hdr_subset heap hv.inner samples with
  | none => (heap, .error ())
  | some (heap2, p, imap) => (heap2, .ok { inner := p, subset := some imap })

/-- `Header::push_sample` (header.rs): calls `bcf_hdr_add_sample` and discards
its result, returning `&mut self`; so no error is ever surfaced and on a
rejected (duplicate) add the header storage is simply left unchanged. -/
def Header.push_sample (heap : Heap) (h : Header) (sample : Name) : Heap × Header :=
  match heap.get? h.inner with
  | none => (heap, h)
  | some hd =>
    match bcf_hdr_add_sample hd sample with
    | .ok hd2 => (heap.set h.inner hd2, h)
    | .error _ => (heap, h)

/-- `HeaderView::sample_count` (header.rs): reads `n[BCF_DT_SAMPLE]`. -/
def HeaderView.sample_count (heap : Heap) (hv : HeaderView) : Nat :=
  (heap.getD hv.inner default).nSample

/-- `HeaderView::samples` (header.rs): `slice::from_raw_parts(samples,
sample_count())`, then each name is read out. -/
def HeaderView.samples (heap : Heap) (hv : HeaderView) : Option (List Name) :=
  rawSlice (heap.getD hv.inner default).samples (HeaderView.sample_count heap hv)

/-- The `bcf_hdr_t` field invariant maintained by htslib: the count field
agrees with the length of the sample name array. -/
def WFHdr (h : BcfHdr) : Prop := h.nSample = h.samples.length

/-- The mode string computed by `Writer::new` (mod.rs). -/
def writeMode (uncompressed vcf : Bool) : Name :=
  match uncompressed, vcf with
  | true, true => "w"
  | false, true => "wz"
  | true, false => "wu"
  | false, false => "wb"

/-- `Writer::new` (mod.rs): the writer's header is a private `bcf_hdr_dup`
duplicate of the given header, and `subset` is a clone of the header's subset
map.  (Opening the file and writing the header prologue are out-of-scope I/O.) -/
def Writer.new (heap : Heap) (h : Header) : Heap × Writer :=
  let dup := bcf_hdr_dup heap h.inner
  (dup.1, { header := ⟨dup.2⟩, subset := h.subset })

/-- `Writer::translate` (mod.rs): calls `bcf_translate(self.header, record.header,
record)` discarding its result, then unconditionally rebinds
`record.header = self.header.inner`. -/
def Writer.translate (heap : Heap) (w : Writer) (record : Record) : Record :=
  let inner :=
    match bcf_translate heap w.header.inner record.header record.inner with
    | .ok r2 => r2
    | .error _ => record.inner
  { inner := inner, header := w.header.inner }

/-- `Writer::subset` (mod.rs) — named `subsetRec` here because the `subset`
field occupies the name: with `subset: Some(map)` it calls `bcf_subset`
(discarding its result); with `subset: None` it does nothing. -/
def Writer.subsetRec (w : Writer) (record : Record) : Record :=
  match w.subset with
  | some smap =>
    { record with inner :=
        match bcf_subset smap record.inner with
        | .ok r2 => r2
        | .error _ => record.inner }
  | none => record

/-- `Reader::read` (mod.rs): `bcf_read` fills the record buffer; return code 0
rebinds the record to the reader's header and yields `Ok(())`, -1 yields
`NoMoreRecord`, anything else `Invalid`. -/
def Reader.read (rd : Reader) (out : CodecOut) (record : Record) :
    Record × Except ReadError Unit :=
  let filled := { record with inner := codecFill out record.inner }
  if retOf out = 0 then ({ filled with header := rd.header.inner }, .ok ())
  else if retOf out = -1 then (filled, .error .NoMoreRecord)
  else (filled, .error .Invalid)

/-- `Reader::records` (mod.rs). -/
def Reader.records (rd : Reader) : Records := ⟨rd⟩

/-- `Records::next` (mod.rs): reads into a fresh record; `NoMoreRecord` ends
the iterator with `None`, any other error is yielded as `Some(Err(e))`, a
success as `Some(Ok(record))`. -/
def Records.next (rs : Records) (out : CodecOut) : Option (Except ReadError Record) :=
  match Reader.read rs.reader out Record.new with
  | (_, .error .NoMoreRecord) => none
  | (_, .error e) => some (.error e)
  | (r, .ok _) => some (.ok r)

/-! ## Concrete inputs used to exercise the theorems -/

/-- A header with one contig, two field definitions and three samples. -/
def hdrA : BcfHdr := ⟨["chr1"], ["PL", "DP"], ["s1", "s2", "s3"], 3⟩

/-- A destination header that does not declare `chr1`. -/
def hdrB : BcfHdr := ⟨["chrX"], ["PL"], ["s1"], 1⟩

def heap0 : Heap := [hdrA, hdrB]

def rd0 : Reader := ⟨⟨0⟩⟩

/-- A record bound to `hdrA` (heap slot 0), with one INFO and one FORMAT field. -/
def rec0 : Record :=
  ⟨⟨0, 100, ["A", "C"], [(1, .int 7)], [(0, [.int 1, .int 2, .int 3])]⟩, 0⟩

/-- Fresh record data arriving from the codec. -/
def recNew0 : BcfRec := ⟨0, 200, ["T", "G"], [], [(0, [.int 9, .int 8, .int 7])]⟩

/-- A writer over heap slot 0 carrying the subset map `[2, 0]`. -/
def w1 : Writer := ⟨⟨0⟩, some [2, 0]⟩

/-- A writer over heap slot 1 (`hdrB`), no subset map. -/
def w3 : Writer := ⟨⟨1⟩, none⟩

/-- A writer over heap slot 0 with no subset map. -/
def w8 : Writer := ⟨⟨0⟩, none⟩

/-- A Rust-side header handle for heap slot 0. -/
def h6 : Header := ⟨0, some [2, 0]⟩

/-- A Rust-side header handle for heap slot 0 with no subset map. -/
def h7 : Header := ⟨0, none⟩

/-! ## Helper lemmas -/

theorem subsetSeq_spec (vs : List BVal) (smap : List Int)
    (h : ∀ m ∈ smap, 0 ≤ m ∧ m.toNat < vs.length) :
    ∃ vs2, subsetSeq vs smap = some vs2 ∧ vs2.length = smap.length ∧
      ∀ i m, smap.get? i = some m → vs2.get? i = vs.get? m.toNat := by
  induction smap with
  | nil =>
    refine ⟨[], rfl, rfl, ?_⟩
    intro i m hm
    simp at hm
  | cons m ms ih =>
    obtain ⟨hm0, hmlt⟩ := h m (List.mem_cons_self m ms)
    obtain ⟨rest, hrest, hlen, hpt⟩ := ih (fun x hx => h x (List.mem_cons_of_mem m hx))
    cases hv : vs.get? m.toNat with
    | none =>
      exact absurd (List.get?_eq_none.mp hv) (by omega)
    | some v =>
      refine ⟨v :: rest, ?_, by simp [hlen], ?_⟩
      · simp only [subsetSeq, subsetEntry, if_neg (by omega : ¬ m < 0), hv, hrest]
      · intro i x hx
        cases i with
        | zero =>
          simp only [List.get?] at hx ⊢
          cases hx
          exact hv.symm
        | succ j =>
          simp only [List.get?] at hx ⊢
          exact hpt j x hx

theorem subsetFormat_spec (smap : List Int) (l : List (Nat × List BVal))
    (h : ∀ p ∈ l, ∀ m ∈ smap, 0 ≤ m ∧ m.toNat < p.2.length) :
    ∃ l2, subsetFormat smap l = some l2 ∧ l2.length = l.length ∧
      ∀ j id vs, l.get? j = some (id, vs) →
        ∃ vs2, l2.get? j = some (id, vs2) ∧ vs2.length = smap.length ∧
          ∀ i m, smap.get? i = some m → vs2.get? i = vs.get? m.toNat := by
  induction l with
  | nil =>
    refine ⟨[], rfl, rfl, ?_⟩
    intro j id vs hj
    simp at hj
  | cons p rest ih =>
    obtain ⟨vs2, hvs2, hvlen, hvpt⟩ :=
      subsetSeq_spec p.2 smap (h p (List.mem_cons_self p rest))
    obtain ⟨rest2, hrest2, hrlen, hrpt⟩ :=
      ih (fun q hq => h q (List.mem_cons_of_mem p hq))
    refine ⟨(p.1, vs2) :: rest2, ?_, by simp [hrlen], ?_⟩
    · simp only [subsetFormat, hvs2, hrest2]
    · intro j id vs hj
      cases j with
      | zero =>
        simp only [List.get?] at hj ⊢
        cases hj
        exact ⟨vs2, rfl, hvlen, hvpt⟩
      | succ k =>
        simp only [List.get?] at hj ⊢
        exact hrpt k id vs hj

theorem buildImap_spec (orig : List Name) (names : List Name) (imap : List Int)
    (h : buildImap orig names = some imap) :
    imap.length = names.length ∧
    ∀ i n, names.get? i = some n → imap.get? i = (dictLookup orig n).map Int.ofNat := by
  induction names generalizing imap with
  | nil =>
    simp only [buildImap] at h
    cases h
    refine ⟨rfl, ?_⟩
    intro i n hn
    simp at hn
  | cons n ns ih =>
    simp only [buildImap] at h
    cases hl : dictLookup orig n with
    | none => rw [hl] at h; exact absurd h (by simp)
    | some i0 =>
      rw [hl] at h
      cases hr : buildImap orig ns with
      | none => rw [hr] at h; exact absurd h (by simp)
      | some rest =>
        rw [hr] at h
        cases h
        obtain ⟨hlen, hpt⟩ := ih rest hr
        refine ⟨by simp [hlen], ?_⟩
        intro i x hx
        cases i with
        | zero =>
          simp only [List.get?] at hx ⊢
          cases hx
          simp [hl]
        | succ j =>
          simp only [List.get?] at hx ⊢
          exact hpt j x hx

/-! ## Claims -/

/-- C2: for every record and writer, `translate` rebinds the record's header
to the writer's header, and re-applying `translate` with the same destination
is a no-op (idempotence). -/
theorem translate_rebinds_and_idempotent (heap : Heap) (w : Writer) (record : Record) :
    (Writer.translate heap w record).header = w.header.inner ∧
    Writer.translate heap w (Writer.translate heap w record) =
      Writer.translate heap w record := by
  refine ⟨rfl, ?_⟩
  simp [Writer.translate, bcf_translate]

/-- C8: a writer constructed without a subset map skips the subsetting stage:
`subset` leaves the record entirely unchanged. -/
theorem subset_none_skips (w : Writer) (record : Record) (h : w.subset = none) :
    Writer.subsetRec w record = record := by
  simp [Writer.subsetRec, h]

/-- Witness for C8 at a concrete writer and record. -/
theorem subset_none_skips_witness :
    w8.subset = none ∧ Writer.subsetRec w8 rec0 = rec0 :=
  ⟨rfl, subset_none_skips w8 rec0 rfl⟩

/-- C9: `read` leaves the record's header binding unchanged on any error and
rebinds the record to the reader's header exactly on success. -/
theorem read_rebinds_only_on_success (rd : Reader) (out : CodecOut) (record : Record) :
    (∀ e, (Reader.read rd out record).2 = .error e →
      (Reader.read rd out record).1.header = record.header) ∧
    ((Reader.read rd out record).2 = .ok () →
      (Reader.read rd out record).1.header = rd.header.inner) := by
  cases out with
  | record r2 => simp [Reader.read, retOf, codecFill]
  | endOfStream => simp [Reader.read, retOf, codecFill]
  | fault c =>
    by_cases h0 : c = 0
    · subst h0; simp [Reader.read, retOf, codecFill]
    · by_cases h1 : c = -1
      · subst h1; simp [Reader.read, retOf, codecFill]
      · simp [Reader.read, retOf, codecFill, h0, h1]

/-- Witness for C9: a failed read keeps the binding, a successful read rebinds. -/
theorem read_rebinds_only_on_success_witness :
    (Reader.read rd0 CodecOut.endOfStream rec0).1.header = rec0.header ∧
    (Reader.read rd0 (CodecOut.record recNew0) rec0).1.header = rd0.header.inner :=
  ⟨(read_rebinds_only_on_success rd0 CodecOut.endOfStream rec0).1 ReadError.NoMoreRecord
      (by simp [Reader.read, retOf]),
   (read_rebinds_only_on_success rd0 (CodecOut.record recNew0) rec0).2
      (by simp [Reader.read, retOf])⟩

/-- C5: end of stream is a dedicated condition: `read` returns `NoMoreRecord`
exactly when the codec signals end of stream and `Invalid` on any other
failure; the `Records` iterator yields `None` on end of stream, `Some(Err)` on
a fault, and `Some(Ok)` on a decoded record. -/
theorem read_end_of_stream_distinct (rd : Reader) (out : CodecOut) (record : Record)
    (hwf : WFCodec out) :
    ((Reader.read rd out record).2 = .error .NoMoreRecord ↔ out = .endOfStream) ∧
    (∀ c, out = .fault c → (Reader.read rd out record).2 = .error .Invalid) ∧
    (Records.next rd.records out = none ↔ out = .endOfStream) ∧
    (∀ c, out = .fault c → Records.next rd.records out = some (.error .Invalid)) ∧
    (∀ r2, out = .record r2 →
      Records.next rd.records out =
        some (.ok { inner := r2, header := rd.header.inner })) := by
  cases out with
  | record r2 =>
    simp [Reader.read, Records.next, Reader.records, retOf, codecFill, Record.new]
  | endOfStream =>
    simp [Reader.read, Records.next, Reader.records, retOf, codecFill]
  | fault c =>
    obtain ⟨h0, h1⟩ := hwf
    simp [Reader.read, Records.next, Reader.records, retOf, codecFill, h0, h1]

/-- Witness for C5 at a concrete reader: end of stream and a fault code. -/
theorem read_end_of_stream_distinct_witness :
    (Reader.read rd0 CodecOut.endOfStream rec0).2 = .error .NoMoreRecord ∧
    Records.next rd0.records CodecOut.endOfStream = none ∧
    Records.next rd0.records (CodecOut.fault (-2)) = some (.error .Invalid) :=
  ⟨(read_end_of_stream_distinct rd0 CodecOut.endOfStream rec0 trivial).1.mpr rfl,
   (read_end_of_stream_distinct rd0 CodecOut.endOfStream rec0 trivial).2.2.1.mpr rfl,
   (read_end_of_stream_distinct rd0 (CodecOut.fault (-2)) rec0
      ⟨by decide, by decide⟩).2.2.2.1 (-2) rfl⟩

/-- C6: a writer built from a header owns a private duplicate of it — a fresh
heap slot with equal contents, never the original slot — and copies the
header's subset map verbatim (`Some` iff the source's is `Some`). -/
theorem writer_new_private_duplicate (heap : Heap) (h : Header)
    (hv : h.inner < heap.length) :
    (Writer.new heap h).2.header.inner ≠ h.inner ∧
    (Writer.new heap h).1.get? (Writer.new heap h).2.header.inner = heap.get? h.inner ∧
    (Writer.new heap h).2.subset = h.subset := by
  refine ⟨?_, ?_, rfl⟩
  · show heap.length ≠ h.inner
    exact (Nat.ne_of_lt hv).symm
  · show (heap ++ [heap.getD h.inner default]).get? heap.length = heap.get? h.inner
    rw [List.get?_concat_length, List.getD_eq_get?, List.get?_eq_get hv]
    rfl

/-- Witness for C6 at a concrete heap and header. -/
theorem writer_new_private_duplicate_witness :
    h6.inner < heap0.length ∧
    ((Writer.new heap0 h6).2.header.inner ≠ h6.inner ∧
     (Writer.new heap0 h6).1.get? (Writer.new heap0 h6).2.header.inner =
       heap0.get? h6.inner ∧
     (Writer.new heap0 h6).2.subset = h6.subset) :=
  ⟨by decide, writer_new_private_duplicate heap0 h6 (by decide)⟩

/-- C10: `samples()` reads exactly `sample_count()` names: under the htslib
header invariant the returned list's length equals `sample_count()`. -/
theorem samples_length_matches_sample_count (heap : Heap) (hv : HeaderView) (hd : BcfHdr)
    (hhd : heap.get? hv.inner = some hd) (hwf : WFHdr hd) :
    ∃ l, HeaderView.samples heap hv = some l ∧
      l.length = HeaderView.sample_count heap hv := by
  have hElem : heap[hv.inner]? = some hd := by
    rw [← List.get?_eq_getElem?]
    exact hhd
  have hw : hd.nSample = hd.samples.length := hwf
  refine ⟨hd.samples.take hd.nSample, ?_, ?_⟩
  · simp [HeaderView.samples, HeaderView.sample_count, rawSlice, hElem, hw]
  · simp [HeaderView.sample_count, hElem, hw]

/-- C1: for a record bound to the writer's header and a writer holding subset
map `[m0..mk-1]`, `subset` replaces each per-sample FORMAT sequence by the
length-`k` sequence whose position `i` holds the old value at index `m_i`;
INFO fields are untouched. -/
theorem subset_replaces_format (w : Writer) (record : Record) (smap : SampleSubset)
    (hs : w.subset = some smap)
    (_hb : record.header = w.header.inner)
    (hin : ∀ p ∈ record.inner.format, ∀ m ∈ smap, 0 ≤ m ∧ m.toNat < p.2.length) :
    (Writer.subsetRec w record).inner.info = record.inner.info ∧
    (Writer.subsetRec w record).inner.format.length = record.inner.format.length ∧
    ∀ j id vs, record.inner.format.get? j = some (id, vs) →
      ∃ vs2, (Writer.subsetRec w record).inner.format.get? j = some (id, vs2) ∧
        vs2.length = smap.length ∧
        ∀ i m, smap.get? i = some m → vs2.get? i = vs.get? m.toNat := by
  obtain ⟨l2, hl2, hlen, hpt⟩ := subsetFormat_spec smap record.inner.format hin
  have hrun : Writer.subsetRec w record =
      { record with inner := { record.inner with format := l2 } } := by
    simp [Writer.subsetRec, hs, bcf_subset, hl2]
  rw [hrun]
  exact ⟨rfl, by simp [hlen], fun j id vs hj => hpt j id vs hj⟩

/-- Witness for C1: the spec's own example, values `[v1, v2, v3]` under map
`[2, 0]` become `[v3, v1]`; the INFO field is unchanged. -/
theorem subset_replaces_format_witness :
    w1.subset = some [2, 0] ∧ rec0.header = w1.header.inner ∧
    (Writer.subsetRec w1 rec0).inner.format = [(0, [BVal.int 3, BVal.int 1])] ∧
    (Writer.subsetRec w1 rec0).inner.info = rec0.inner.info :=
  ⟨rfl, rfl, by decide,
   (subset_replaces_format w1 rec0 [2, 0] rfl rfl (by decide)).1⟩

/-- C4: a successful `subset_template` returns a header whose subset map has
one entry per requested name, entry `i` being the original id of the `i`-th
requested name in the template's sample dictionary; a failed underlying
dictionary build surfaces as an error. -/
theorem subset_template_spec (heap : Heap) (hv : HeaderView) (names : List Name)
    (hd : BcfHdr) (hhd : heap.get? hv.inner = some hd) :
    (∀ h2, (Header.subset_template heap hv names).2 = .ok h2 →
      ∃ imap, h2.subset = some imap ∧ imap.length = names.length ∧
        ∀ i n, names.get? i = some n →
          imap.get? i = (dictLookup hd.samples n).map Int.ofNat) ∧
    (bcf_hdr_subset heap hv.inner names = none →
      (Header.subset_template heap hv names).2 = .error ()) := by
  have hhd2 : heap[hv.inner]? = some hd := by
    rw [← List.get?_eq_getElem?]
    exact hhd
  cases hbi : buildImap hd.samples names with
  | none =>
    have hbs : bcf_hdr_subset heap hv.inner names = none := by
      simp [bcf_hdr_subset, hhd2, hbi]
    constructor
    · intro h2 hok
      simp [Header.subset_template, hbs] at hok
    · intro _
      simp [Header.subset_template, hbs]
  | some imap =>
    have hbs : bcf_hdr_subset heap hv.inner names =
        some (heap ++ [{ hd with samples := names, nSample := names.length }],
              heap.length, imap) := by
      simp [bcf_hdr_subset, hhd2, hbi]
    obtain ⟨hlen, hpt⟩ := buildImap_spec hd.samples names imap hbi
    constructor
    · intro h2 hok
      simp [Header.subset_template, hbs] at hok
      exact ⟨imap, by rw [← hok], hlen, hpt⟩
    · intro hnone
      rw [hbs] at hnone
      exact absurd hnone (by simp)

/-- Witness for C4: subsetting `hdrA` to `["s3", "s1"]` yields the map `[2, 0]`
with the stated length and entries. -/
theorem subset_template_spec_witness :
    ∃ imap, ({ inner := 2, subset := some [2, 0] } : Header).subset = some imap ∧
      imap.length = (["s3", "s1"] : List Name).length ∧
      ∀ i n, (["s3", "s1"] : List Name).get? i = some n →
        imap.get? i = (dictLookup hdrA.samples n).map Int.ofNat :=
  (subset_template_spec heap0 ⟨0⟩ ["s3", "s1"] hdrA rfl).1
    { inner := 2, subset := some [2, 0] } (by rfl)

/-- C3 counterexample: a record on contig `chr1` translated toward a header
that only declares `chrX`.  The contig is absent from the destination
dictionary, yet `Writer::translate` (whose return type carries no error) still
rebinds the record: the original header binding is NOT left untouched, so the
claim fails as stated. -/
theorem translate_unknown_contig_counterexample :
    (heap0.getD rec0.header default).contigs.get? rec0.inner.rid = some "chr1" ∧
    dictLookup (heap0.getD w3.header.inner default).contigs "chr1" = none ∧
    (Writer.translate heap0 w3 rec0).header ≠ rec0.header := by decide

/-- C3 amended: on an unknown contig the underlying `bcf_translate` step fails
with `UnknownContigError` and leaves the record's data untouched, but
`Writer::translate` discards that failure: it surfaces no error and still
rebinds the record to the writer's header. -/
theorem translate_unknown_contig_amended (heap : Heap) (w : Writer) (r : Record)
    (dst src : BcfHdr)
    (hdst : heap.get? w.header.inner = some dst)
    (hsrc : heap.get? r.header = some src)
    (hne : r.header ≠ w.header.inner)
    (hmiss : (src.contigs.get? r.inner.rid).bind (dictLookup dst.contigs) = none) :
    bcf_translate heap w.header.inner r.header r.inner = .error .unknownContig ∧
    Writer.translate heap w r = { inner := r.inner, header := w.header.inner } := by
  have hdst2 : heap[w.header.inner]? = some dst := by
    rw [← List.get?_eq_getElem?]
    exact hdst
  have hsrc2 : heap[r.header]? = some src := by
    rw [← List.get?_eq_getElem?]
    exact hsrc
  have hmiss2 : (src.contigs[r.inner.rid]?).bind (dictLookup dst.contigs) = none := by
    rw [← List.get?_eq_getElem?]
    exact hmiss
  have ht : bcf_translate heap w.header.inner r.header r.inner =
      .error .unknownContig := by
    simp [bcf_translate, hne, hdst2, hsrc2, translateCore, hmiss2]
  refine ⟨ht, ?_⟩
  simp [Writer.translate, ht]

/-- Witness for the amended C3 at the concrete unknown-contig scenario. -/
theorem translate_unknown_contig_amended_witness :
    bcf_translate heap0 w3.header.inner rec0.header rec0.inner =
      .error .unknownContig ∧
    Writer.translate heap0 w3 rec0 = { inner := rec0.inner, header := w3.header.inner } :=
  translate_unknown_contig_amended heap0 w3 rec0 hdrB hdrA rfl rfl
    (by decide) (by decide)

/-- C7 counterexample: pushing a sample name that is already present returns
normally with the heap and header unchanged — `push_sample` has no error
channel, so it does not fail with `DuplicateNameError` as the claim states. -/
theorem push_sample_duplicate_counterexample :
    "s1" ∈ (heap0.getD h7.inner default).samples ∧
    Header.push_sample heap0 h7 "s1" = (heap0, h7) := by decide

/-- C7 amended: `push_sample` appends an absent name to the sample dictionary
with the next dense id (the appended position); when the name is already
present, the underlying `bcf_hdr_add_sample` rejects the duplicate and the
dictionary stays unchanged, but `push_sample` discards that error and returns
normally. -/
theorem push_sample_amended (heap : Heap) (h : Header) (sample : Name) (hd : BcfHdr)
    (hhd : heap.get? h.inner = some hd) :
    (sample ∉ hd.samples →
      Header.push_sample heap h sample =
        (heap.set h.inner
          { hd with samples := hd.samples ++ [sample], nSample := hd.nSample + 1 },
         h)) ∧
    (sample ∈ hd.samples → Header.push_sample heap h sample = (heap, h)) := by
  have hhd2 : heap[h.inner]? = some hd := by
    rw [← List.get?_eq_getElem?]
    exact hhd
  constructor
  · intro hnot
    simp [Header.push_sample, hhd2, bcf_hdr_add_sample, hnot]
  · intro hmem
    simp [Header.push_sample, hhd2, bcf_hdr_add_sample, hmem]

/-- Witness for the amended C7: a fresh name is appended, a duplicate is a
surfaced-error-free no-op. -/
theorem push_sample_amended_witness :
    Header.push_sample heap0 h7 "s4" =
      (heap0.set 0
        { hdrA with samples := hdrA.samples ++ ["s4"], nSample := hdrA.nSample + 1 },
       h7) ∧
    Header.push_sample heap0 h7 "s1" = (heap0, h7) :=
  ⟨(push_sample_amended heap0 h7 "s4" hdrA rfl).1 (by decide),
   (push_sample_amended heap0 h7 "s1" hdrA rfl).2 (by decide)⟩

/-- Witness for C10 at a concrete heap and view. -/
theorem samples_length_matches_sample_count_witness :
    heap0.get? (0 : Nat) = some hdrA ∧ WFHdr hdrA ∧
    ∃ l, HeaderView.samples heap0 ⟨0⟩ = some l ∧
      l.length = HeaderView.sample_count heap0 ⟨0⟩ :=
  ⟨rfl, rfl, samples_length_matches_sample_count heap0 ⟨0⟩ hdrA rfl rfl⟩

end Bcf
